import Mathlib

/-!
Verification development for the portfolio-tracking LLM recommendation
pipeline (services/llm_analysis_service.py, services/recommendation_service.py,
services/portfolio_service.py).

Conventions of the shallow embedding:
* Model-response texts are lists of characters; JSON decoding (the Python
  standard-library json.loads) is an external parameter `loads`.
* Parsed JSON dictionaries are association lists of string keys and scalar
  values (the code only reads top-level scalar fields).
* External effects (the Gemini network call, yfinance fetches, the ORM
  session) are passed in as explicit parameters or modelled as explicit
  state; Python exceptions are modelled with Except.
* Machine floats are modelled by exact rationals, except where IEEE special
  values drive control flow (the RSI computation), where an explicit
  float-like type with infinities and NaN is used.
-/

namespace River1

/-! ## Scalar JSON values and dictionaries -/

/-- A scalar JSON value: the repository only inspects string and numeric
fields of parsed model responses. -/
inductive Val where
  | vStr (s : String)
  | vNum (q : ℚ)
deriving DecidableEq, Repr

/-- A parsed JSON object, as an association list in key order. -/
abbrev Dict := List (String × Val)

/-- Python d[k] or d.get(k): first binding of the key, if any. -/
def dget (d : Dict) (k : String) : Option Val :=
  List.lookup k d

/-- Python d.get(k, default). -/
def dgetD (d : Dict) (k : String) (dflt : Val) : Val :=
  (dget d k).getD dflt

/-- Python (k in d). -/
def hasKey (d : Dict) (k : String) : Bool :=
  (dget d k).isSome

/-- Python str() of a scalar value, as used in f-string interpolation. -/
def valText : Val → String
  | .vStr s => s
  | .vNum q => toString q

/-! ## _parse_llm_json_response (llm_analysis_service.py lines 63-86)

The code strips surrounding whitespace, removes a leading three-backtick-json
marker, a leading three-backtick marker and a trailing three-backtick marker,
strips again, and hands the rest to json.loads (which raises on bad input,
modelled by the Except error). -/

/-- The whitespace characters removed by the Python str.strip default. -/
def isPyWS (c : Char) : Bool :=
  c = ' ' || c = '\t' || c = '\n' || c = '\r' || c = Char.ofNat 11 || c = Char.ofNat 12

/-- Python text.strip(): drop whitespace at both ends. -/
def pyStrip (cs : List Char) : List Char :=
  ((cs.dropWhile isPyWS).reverse.dropWhile isPyWS).reverse

/-- The 7-character opening marker recognised first. -/
def fenceJson : List Char := "```json".toList

/-- The 3-character code-fence marker. -/
def fence : List Char := "```".toList

/-- The backtick character. -/
def btick : Char := Char.ofNat 96

/-- text[7:] when text startswith the three-backtick-json marker. -/
def stripLeadingJsonFence (t : List Char) : List Char :=
  if fenceJson.isPrefixOf t then t.drop 7 else t

/-- text[3:] when text startswith the three-backtick marker. -/
def stripLeadingFence (t : List Char) : List Char :=
  if fence.isPrefixOf t then t.drop 3 else t

/-- text[:-3] when text endswith the three-backtick marker. -/
def stripTrailingFence (t : List Char) : List Char :=
  if fence.isSuffixOf t then t.take (t.length - 3) else t

/-- The unwrapping performed before json.loads: strip, drop a leading
three-backtick-json marker (7 characters), then a leading plain marker
(3 characters), then a trailing marker (last 3 characters), then strip —
the four sequential reassignments of the source. -/
def unwrapFences (cs : List Char) : List Char :=
  pyStrip (stripTrailingFence (stripLeadingFence (stripLeadingJsonFence (pyStrip cs))))

/-- _parse_llm_json_response: unwrap then decode; a decode failure raises
(json.JSONDecodeError is re-raised after logging). -/
def parse_llm_json_response (loads : List Char → Option Dict)
    (responseText : List Char) : Except String Dict :=
  match loads (unwrapFences responseText) with
  | some d => .ok d
  | none => .error "JSONDecodeError"

/-! ## _call_gemini_optimized (lines 36-61)

Parameters: whether the API key was configured (llm_available), the JSON
decoder, and the outcome of model.generate_content (a raise or a response
text). Every exception inside the call, including the parse raise, is caught
and converted to an error dictionary. The second component counts calls that
actually reached the model (the source increments gemini_call_count exactly
when the availability guard passes). -/

def call_gemini_optimized (llmAvailable : Bool) (loads : List Char → Option Dict)
    (modelResponse : Except String (List Char)) : Dict × Nat :=
  if llmAvailable = false then
    ([("error", .vStr "Gemini API not configured")], 0)
  else
    match modelResponse with
    | .error e => ([("error", .vStr e)], 1)
    | .ok text =>
        match parse_llm_json_response loads text with
        | .ok d => (d, 1)
        | .error e => ([("error", .vStr e)], 1)

/-! ## The three analyzers (lines 429-602)

Each analyzer short-circuits on falsy input, then on an unconfigured model,
then runs its try-block: build the prompt, call the model, and shape the
result; any body exception is caught and becomes a neutral-zero result.
The only body expression that can raise before the model call is the news
summary construction, which subscripts item fields directly. -/

/-- Python falsiness of the news argument: None or an empty list. -/
def pyFalsyNews (news : Option (List Dict)) : Bool :=
  match news with
  | none => true
  | some items => items.isEmpty

/-- The f-string building the news summary subscripts item title and item
summary: a missing key raises KeyError (caught by the analyzer wrapper). -/
def newsSummaryKeys : List Dict → Except String Unit
  | [] => .ok ()
  | item :: rest =>
      match dget item "title", dget item "summary" with
      | some _, some _ => newsSummaryKeys rest
      | _, _ => .error "KeyError"

/-- _analyze_news_sentiment (lines 429-490). Returns the result dictionary
and the number of model calls made. -/
def analyze_news_sentiment (llmAvailable : Bool) (loads : List Char → Option Dict)
    (modelResponse : Except String (List Char)) (newsData : Option (List Dict)) :
    Dict × Nat :=
  if pyFalsyNews newsData then
    ([("score", .vNum 0), ("reasoning", .vStr "No recent news available")], 0)
  else if llmAvailable = false then
    ([("score", .vNum 0), ("reasoning", .vStr "Gemini API key not configured")], 0)
  else
    match newsSummaryKeys ((newsData.getD []).take 5) with
    | .error e =>
        ([("score", .vNum 0),
          ("reasoning", .vStr ("Error in sentiment analysis: " ++ e))], 0)
    | .ok _ =>
        let r := call_gemini_optimized llmAvailable loads modelResponse
        if hasKey r.1 "error" then
          ([("score", .vNum 0),
            ("reasoning", .vStr ("Error in sentiment analysis: "
              ++ valText (dgetD r.1 "error" (.vStr ""))))], r.2)
        else
          ([("score", dgetD r.1 "sentiment_score" (.vNum 0)),
            ("reasoning", dgetD r.1 "reasoning" (.vStr "Analysis completed")),
            ("confidence", dgetD r.1 "confidence" (.vNum (7/10)))], r.2)

/-- _analyze_technical_indicators (lines 492-544); the technical-data slice
is a dictionary, falsy when empty; the prompt only uses .get so the body
cannot raise before the call. -/
def analyze_technical_indicators (llmAvailable : Bool) (loads : List Char → Option Dict)
    (modelResponse : Except String (List Char)) (technicalData : Dict) :
    Dict × Nat :=
  if technicalData.isEmpty then
    ([("score", .vNum 0), ("reasoning", .vStr "No technical data available")], 0)
  else if llmAvailable = false then
    ([("score", .vNum 0), ("reasoning", .vStr "Gemini API key not configured")], 0)
  else
    let r := call_gemini_optimized llmAvailable loads modelResponse
    if hasKey r.1 "error" then
      ([("score", .vNum 0),
        ("reasoning", .vStr ("Error in technical analysis: "
          ++ valText (dgetD r.1 "error" (.vStr ""))))], r.2)
    else
      ([("score", dgetD r.1 "technical_score" (.vNum 0)),
        ("reasoning", dgetD r.1 "reasoning" (.vStr "Technical analysis completed"))], r.2)

/-- _analyze_fundamentals (lines 546-602); the guard also treats a
fundamentals dictionary carrying an error field as missing data. -/
def analyze_fundamentals (llmAvailable : Bool) (loads : List Char → Option Dict)
    (modelResponse : Except String (List Char)) (stockData : Dict) :
    Dict × Nat :=
  if stockData.isEmpty || hasKey stockData "error" then
    ([("score", .vNum 0), ("reasoning", .vStr "No fundamental data available")], 0)
  else if llmAvailable = false then
    ([("score", .vNum 0), ("reasoning", .vStr "Gemini API key not configured")], 0)
  else
    let r := call_gemini_optimized llmAvailable loads modelResponse
    if hasKey r.1 "error" then
      ([("score", .vNum 0),
        ("reasoning", .vStr ("Error in fundamental analysis: "
          ++ valText (dgetD r.1 "error" (.vStr ""))))], r.2)
    else
      ([("score", dgetD r.1 "fundamental_score" (.vNum 0)),
        ("reasoning", dgetD r.1 "reasoning" (.vStr "Fundamental analysis completed"))], r.2)

/-! ## _generate_final_recommendation (lines 604-673)

The synthesizer is a total function of the configuration flag and the model
call outcome: an unconfigured model short-circuits to the HOLD default with
confidence one half; an error dictionary from the call, or any body
exception, yields the HOLD shape with confidence three tenths. The component
results always carry a score key (by construction of the analyzers), so the
prompt construction cannot raise; no path re-raises to the caller. -/

def generate_final_recommendation (llmAvailable : Bool) (loads : List Char → Option Dict)
    (modelResponse : Except String (List Char)) : Dict :=
  if llmAvailable = false then
    [("recommendation", .vStr "HOLD"), ("confidence", .vNum (1/2)),
     ("reasoning", .vStr "Gemini API key not configured. Please add your API key to get AI-powered recommendations.")]
  else
    let r := call_gemini_optimized llmAvailable loads modelResponse
    if hasKey r.1 "error" then
      [("recommendation", .vStr "HOLD"), ("confidence", .vNum (3/10)),
       ("reasoning", .vStr ("Error in final analysis: "
         ++ valText (dgetD r.1 "error" (.vStr ""))))]
    else
      [("recommendation", dgetD r.1 "recommendation" (.vStr "HOLD")),
       ("confidence", dgetD r.1 "confidence" (.vNum (1/2))),
       ("reasoning", dgetD r.1 "reasoning" (.vStr "Comprehensive analysis completed"))]

/-! ## analyze_stock fan-in (lines 110-132)

The orchestrator collects each analyzer future; a future that raised is
replaced by the neutral-zero fallback before synthesis. -/

/-- The per-future collection step of the orchestrator loop. -/
def collectAnalyzerResult (fut : Except String Dict) : Dict :=
  match fut with
  | .ok r => r
  | .error e => [("score", .vNum 0), ("reasoning", .vStr ("Error: " ++ e))]

/-! ## _calculate_rsi (lines 417-427) and the rsi field of
_get_technical_indicators (lines 401-411)

The pandas pipeline works on IEEE doubles: the first diff entry is NaN, but
the where-masks replace it by zero in both the gain and the loss series, so
the trailing rolling means are real numbers once fourteen observations
exist. The quotient gain over loss then follows IEEE division: a positive
number over zero is positive infinity and zero over zero is NaN, which is
what the float-like type below captures. Finite arithmetic is modelled
exactly over the rationals. -/

/-- A float-like value: finite, positive or negative infinity, or NaN. -/
inductive PF where
  | num (q : ℚ)
  | pinf
  | minf
  | nan
deriving DecidableEq, Repr

/-- IEEE addition on the cases reachable here; mixed infinities and NaN
operands give NaN. -/
def PF.add : PF → PF → PF
  | .num a, .num b => .num (a + b)
  | .num _, .pinf => .pinf
  | .pinf, .num _ => .pinf
  | .pinf, .pinf => .pinf
  | .num _, .minf => .minf
  | .minf, .num _ => .minf
  | .minf, .minf => .minf
  | _, _ => .nan

/-- IEEE subtraction on the cases reachable here. -/
def PF.sub : PF → PF → PF
  | .num a, .num b => .num (a - b)
  | .num _, .minf => .pinf
  | .pinf, .num _ => .pinf
  | .pinf, .minf => .pinf
  | .num _, .pinf => .minf
  | .minf, .num _ => .minf
  | .minf, .pinf => .minf
  | _, _ => .nan

/-- IEEE division on the cases reachable here: a nonzero finite number over
zero carries its sign to infinity, zero over zero is NaN, a finite number
over an infinity is zero. -/
def PF.div : PF → PF → PF
  | .num a, .num b =>
      if b = 0 then (if a = 0 then .nan else if 0 < a then .pinf else .minf)
      else .num (a / b)
  | .num _, .pinf => .num 0
  | .num _, .minf => .num 0
  | .pinf, .num b => if 0 ≤ b then .pinf else .minf
  | .minf, .num b => if 0 ≤ b then .minf else .pinf
  | _, _ => .nan

/-- The gain series: prices.diff().where(positive, 0). The head entry is the
masked NaN of the first diff, which where replaces by zero. -/
def gainSeries (ps : List ℚ) : List ℚ :=
  0 :: List.zipWith (fun prev next => if 0 < next - prev then next - prev else 0) ps ps.tail

/-- The loss series: minus prices.diff().where(negative, 0), likewise with a
zero head entry. -/
def lossSeries (ps : List ℚ) : List ℚ :=
  0 :: List.zipWith (fun prev next => if next - prev < 0 then -(next - prev) else 0) ps ps.tail

/-- The last entry of series.rolling(window=w).mean(): NaN (none) until w
observations exist, otherwise the mean of the trailing w entries. -/
def rollingMeanLast (w : Nat) (xs : List ℚ) : Option ℚ :=
  if xs.length < w then none
  else some ((xs.drop (xs.length - w)).sum / (w : ℚ))

/-- _calculate_rsi: rs is avg gain over avg loss, rsi is 100 minus 100 over
(1 plus rs), taken at the last index. An empty price series makes iloc
raise, caught by the bare except clause which returns None; an incomplete
rolling window propagates NaN through the arithmetic. -/
def calculate_rsi (prices : List ℚ) : Option PF :=
  if prices.isEmpty then none
  else
    match rollingMeanLast 14 (gainSeries prices), rollingMeanLast 14 (lossSeries prices) with
    | some g, some l =>
        some ((PF.num 100).sub ((PF.num 100).div ((PF.num 1).add ((PF.num g).div (PF.num l)))))
    | _, _ => some .nan

/-- Python round(q, 2) (the banker-rounding tie case does not arise in the
statements below). -/
def round2 (q : ℚ) : ℚ := (round (q * 100) : ℤ) / 100

/-- The rsi field reported by _get_technical_indicators: round(rsi, 2) if
rsi else None. None and the float zero are falsy; NaN and infinities are
truthy and survive rounding unchanged. -/
def reportRsi (prices : List ℚ) : Option PF :=
  match calculate_rsi prices with
  | none => none
  | some (.num q) => if q = 0 then none else some (.num (round2 q))
  | some .nan => some .nan
  | some .pinf => some .pinf
  | some .minf => some .minf

/-! ## The recommendation store (recommendation_service.py)

Rows are kept in creation order; the latest recommendation of a stock is the
last row of its filtered history (order_by created_at descending, first).
The ORM session is modelled by the database value itself: pending adds are
visible to later queries in the same session (autoflush) and commit makes
them durable; the rollback path is unreachable in the modelled slice because
none of the modelled steps raises. -/

/-- The fields of an analyze_stock result consumed by the store (the result
dictionary always carries all of them by construction). -/
structure AnalysisResult where
  recommendation : Val
  confidence_score : Val
  reasoning : Val
  news_sentiment : Val
  technical_score : Val
  fundamental_score : Val
deriving DecidableEq, Repr

/-- A Recommendation row (models.py): immutable snapshot per stock. -/
structure RecRow where
  stock_id : Nat
  recommendation : Val
  confidence_score : Val
  reasoning : Val
  news_sentiment : Val
  technical_score : Val
  fundamental_score : Val
deriving DecidableEq, Repr

/-- A RecommendationHistory row (models.py): one action transition. -/
structure ChangeRow where
  stock_id : Nat
  previous_recommendation : Val
  new_recommendation : Val
deriving DecidableEq, Repr

/-- The store state: both tables in creation order. -/
structure DB where
  recs : List RecRow
  changes : List ChangeRow
deriving DecidableEq, Repr

/-- The Recommendation row built from an analysis result (lines 315-325). -/
def recRowOf (sid : Nat) (ar : AnalysisResult) : RecRow :=
  ⟨sid, ar.recommendation, ar.confidence_score, ar.reasoning,
   ar.news_sentiment, ar.technical_score, ar.fundamental_score⟩

/-- Latest recommendation of a stock: order_by created_at descending,
first — the last created row for that stock. -/
def latestRecommendation (db : DB) (sid : Nat) : Option RecRow :=
  (db.recs.filter (fun r => r.stock_id == sid)).getLast?

/-- create_recommendation_for_stock (lines 295-354), after the stock has
been resolved and the analysis result obtained: read the previous latest
recommendation, insert the new row, and insert a change row exactly when a
previous row exists with a different action; then commit. -/
def create_recommendation_for_stock (db : DB) (sid : Nat) (ar : AnalysisResult) : DB :=
  let prev := latestRecommendation db sid
  let db1 : DB := { db with recs := db.recs ++ [recRowOf sid ar] }
  match prev with
  | some p =>
      if p.recommendation ≠ ar.recommendation then
        { db1 with changes := db1.changes ++ [⟨sid, p.recommendation, ar.recommendation⟩] }
      else db1
  | none => db1

/-! ## refresh_all_recommendations (lines 122-260) -/

/-- An active portfolio holding as seen by the refresh driver. -/
structure Holding where
  stock_id : Nat
  symbol : String
deriving DecidableEq, Repr

/-- The dictionary returned by refresh_all_recommendations. -/
structure RefreshOut where
  success : Bool
  updated_count : Nat
  changed_count : Nat
  total_stocks : Nat
  errors : List String
deriving DecidableEq, Repr

/-- analyze_single_stock (lines 144-167): the analysis outcome per holding
is external (the whole LLM pipeline); an exception is caught and converted
into a failure record carrying a human-readable message naming the symbol. -/
def analyze_single_stock (analyze : Holding → Except String AnalysisResult)
    (h : Holding) : Except String AnalysisResult :=
  match analyze h with
  | .ok ar => .ok ar
  | .error e => .error ("Error analyzing " ++ h.symbol ++ ": " ++ e)

/-- The accumulator of the result-processing loop. -/
structure RefreshState where
  session : DB
  updated_count : Nat
  changed_count : Nat
  errors : List String
deriving Repr

/-- One iteration of the as_completed loop (lines 181-238): a success
inserts the new recommendation, and a change row when the action moved;
a failure appends its error string and touches nothing else. -/
def refreshProcessOne (analyze : Holding → Except String AnalysisResult)
    (st : RefreshState) (h : Holding) : RefreshState :=
  match analyze_single_stock analyze h with
  | .ok ar =>
      let db := st.session
      let prev := latestRecommendation db h.stock_id
      let db1 : DB := { db with recs := db.recs ++ [recRowOf h.stock_id ar] }
      match prev with
      | some p =>
          if p.recommendation ≠ ar.recommendation then
            { st with
              session :=
                { db1 with changes := db1.changes ++ [⟨h.stock_id, p.recommendation, ar.recommendation⟩] },
              updated_count := st.updated_count + 1,
              changed_count := st.changed_count + 1 }
          else
            { st with session := db1, updated_count := st.updated_count + 1 }
      | none => { st with session := db1, updated_count := st.updated_count + 1 }
  | .error msg => { st with errors := st.errors ++ [msg] }

/-- refresh_all_recommendations: empty portfolio short-circuits; otherwise
every holding is processed independently (completion order is the list
order) and the session is committed once at the end. -/
def refresh_all_recommendations (db : DB)
    (analyze : Holding → Except String AnalysisResult)
    (holdings : List Holding) : DB × RefreshOut :=
  if holdings.isEmpty then
    (db, ⟨true, 0, 0, 0, []⟩)
  else
    let fin := holdings.foldl (refreshProcessOne analyze) ⟨db, 0, 0, []⟩
    (fin.session,
     ⟨true, fin.updated_count, fin.changed_count, holdings.length, fin.errors⟩)

/-! ## Action-history reconstruction (for the store invariant) -/

/-- Collapse consecutive duplicate actions. -/
def collapseDups : List Val → List Val
  | [] => []
  | [a] => [a]
  | a :: b :: t => if a = b then collapseDups (b :: t) else a :: collapseDups (b :: t)

/-- The action history of a stock, in creation order. -/
def recommendationActions (db : DB) (sid : Nat) : List Val :=
  (db.recs.filter (fun r => r.stock_id == sid)).map (fun r => r.recommendation)

/-- The new-action fields of the change rows of a stock, in creation order. -/
def changeNews (db : DB) (sid : Nat) : List Val :=
  (db.changes.filter (fun c => c.stock_id == sid)).map (fun c => c.new_recommendation)

/-- Replay of the change rows, seeded with the first recommendation action. -/
def changeReplay (db : DB) (sid : Nat) : List Val :=
  match recommendationActions db sid with
  | [] => []
  | a :: _ => a :: changeNews db sid

/-- A sequence of record operations applied to an empty store. -/
def applyRecords (ops : List (Nat × AnalysisResult)) : DB :=
  ops.foldl (fun db op => create_recommendation_for_stock db op.1 op.2) ⟨[], []⟩

/-! ## add_stock_to_portfolio (portfolio_service.py lines 69-108)

The external stock resolution (_get_or_create_stock) and the commit Boolean
are outside the modelled slice; the function below is the holdings-table
transformation: update the first active holding of the stock and owner by
the weighted-average-cost merge, or append a fresh holding (Portfolio rows
default to active). -/

/-- A Portfolio row (models.py). -/
structure PortfolioHolding where
  stock_id : Nat
  user_id : Nat
  shares : ℚ
  average_cost : ℚ
  is_active : Bool
deriving DecidableEq, Repr

/-- The filter_by(stock_id, user_id, is_active=True) predicate. -/
def holdingMatches (sid uid : Nat) (h : PortfolioHolding) : Bool :=
  h.stock_id == sid && h.user_id == uid && h.is_active

/-- The in-place update of an existing holding (lines 83-90): total shares,
total cost, and their quotient as the new average cost. -/
def mergeHolding (h : PortfolioHolding) (shares cost : ℚ) : PortfolioHolding :=
  { h with
    shares := h.shares + shares,
    average_cost := (h.shares * h.average_cost + shares * cost) / (h.shares + shares) }

/-- add_stock_to_portfolio on the holdings table: merge into the first
matching active holding, else append a new active row. -/
def add_stock_to_portfolio : List PortfolioHolding → Nat → Nat → ℚ → ℚ → List PortfolioHolding
  | [], sid, uid, shares, cost => [⟨sid, uid, shares, cost, true⟩]
  | h :: t, sid, uid, shares, cost =>
      if holdingMatches sid uid h then mergeHolding h shares cost :: t
      else h :: add_stock_to_portfolio t sid uid shares cost

/-! # Theorems -/

/-! ## C6: empty or absent news short-circuits the sentiment analyzer -/

/-- C6: for every symbol whose news data slice is absent or empty, the
sentiment analyzer returns score 0 with a reasoning text indicating the
absence of news, and makes no language-model call (second component 0). -/
theorem sentiment_short_circuits_without_news (llmAvailable : Bool)
    (loads : List Char → Option Dict) (modelResponse : Except String (List Char))
    (newsData : Option (List Dict)) (hempty : pyFalsyNews newsData = true) :
    analyze_news_sentiment llmAvailable loads modelResponse newsData =
      ([("score", .vNum 0), ("reasoning", .vStr "No recent news available")], 0) := by
  unfold analyze_news_sentiment
  simp [hempty]

/-- Witness for C6: an absent news slice with a configured model and a
failing network still yields the no-news result without a model call. -/
theorem sentiment_short_circuits_without_news_witness :
    analyze_news_sentiment true (fun _ => none) (.error "down") none =
      ([("score", .vNum 0), ("reasoning", .vStr "No recent news available")], 0) :=
  sentiment_short_circuits_without_news true (fun _ => none) (.error "down") none rfl

/-! ## C1: the synthesizer fallback -/

/-- C1 counterexample: when the model is configured but the call fails, the
synthesizer returns confidence 3/10, not the claimed 1/2. -/
theorem final_recommendation_failure_confidence_cx :
    dget (generate_final_recommendation true (fun _ => none) (.error "network unreachable"))
        "confidence" = some (.vNum (3/10)) ∧
    (Val.vNum (3/10)) ≠ (Val.vNum (1/2)) := by
  constructor
  · rfl
  · simp only [ne_eq, Val.vNum.injEq]
    norm_num

/-- C1 (amended): the synthesizer never raises; when the model is
unconfigured it returns exactly the HOLD result with confidence 1/2, and
when the model call fails (raises, returns unparseable output, or yields an
error dictionary) it returns exactly the HOLD result with confidence 3/10
and an explanatory reasoning text. -/
theorem final_recommendation_fallback (loads : List Char → Option Dict)
    (modelResponse : Except String (List Char)) :
    generate_final_recommendation false loads modelResponse =
      [("recommendation", .vStr "HOLD"), ("confidence", .vNum (1/2)),
       ("reasoning", .vStr "Gemini API key not configured. Please add your API key to get AI-powered recommendations.")] ∧
    (hasKey (call_gemini_optimized true loads modelResponse).1 "error" = true →
      generate_final_recommendation true loads modelResponse =
        [("recommendation", .vStr "HOLD"), ("confidence", .vNum (3/10)),
         ("reasoning", .vStr ("Error in final analysis: "
           ++ valText (dgetD (call_gemini_optimized true loads modelResponse).1 "error" (.vStr ""))))]) := by
  constructor
  · rfl
  · intro hf
    unfold generate_final_recommendation
    simp [hf]

/-- Witness for C1 (amended): a concrete network failure produces the HOLD
result with confidence 3/10. -/
theorem final_recommendation_fallback_witness :
    generate_final_recommendation true (fun _ => none) (.error "down") =
      [("recommendation", .vStr "HOLD"), ("confidence", .vNum (3/10)),
       ("reasoning", .vStr "Error in final analysis: down")] := by
  have h := (final_recommendation_fallback (fun _ => none) (.error "down")).2 (by rfl)
  rw [h]
  rfl

/-! ## C7: analyzers always degrade to the neutral-zero shape -/

/-- Shape of the sentiment analyzer output under any failed model call. -/
theorem news_sentiment_failure_shape (llmAvailable : Bool)
    (loads : List Char → Option Dict) (modelResponse : Except String (List Char))
    (newsData : Option (List Dict))
    (hfail : hasKey (call_gemini_optimized llmAvailable loads modelResponse).1 "error" = true) :
    ∃ s n, analyze_news_sentiment llmAvailable loads modelResponse newsData =
      ([("score", .vNum 0), ("reasoning", .vStr s)], n) := by
  unfold analyze_news_sentiment
  by_cases h1 : pyFalsyNews newsData = true
  · exact ⟨"No recent news available", 0, by simp [h1]⟩
  · cases llmAvailable with
    | false => exact ⟨"Gemini API key not configured", 0, by simp [h1]⟩
    | true =>
        rcases h3 : newsSummaryKeys ((newsData.getD []).take 5) with e | u
        · exact ⟨"Error in sentiment analysis: " ++ e, 0, by simp [h1, h3]⟩
        · exact ⟨"Error in sentiment analysis: "
              ++ valText (dgetD (call_gemini_optimized true loads modelResponse).1 "error" (.vStr "")),
            (call_gemini_optimized true loads modelResponse).2,
            by simp [h1, h3, hfail]⟩

/-- Shape of the technical analyzer output under any failed model call. -/
theorem technical_failure_shape (llmAvailable : Bool)
    (loads : List Char → Option Dict) (modelResponse : Except String (List Char))
    (technicalData : Dict)
    (hfail : hasKey (call_gemini_optimized llmAvailable loads modelResponse).1 "error" = true) :
    ∃ s n, analyze_technical_indicators llmAvailable loads modelResponse technicalData =
      ([("score", .vNum 0), ("reasoning", .vStr s)], n) := by
  unfold analyze_technical_indicators
  by_cases h1 : technicalData.isEmpty = true
  · exact ⟨"No technical data available", 0, by simp [h1]⟩
  · cases llmAvailable with
    | false => exact ⟨"Gemini API key not configured", 0, by simp [h1]⟩
    | true =>
        exact ⟨"Error in technical analysis: "
            ++ valText (dgetD (call_gemini_optimized true loads modelResponse).1 "error" (.vStr "")),
          (call_gemini_optimized true loads modelResponse).2,
          by simp [h1, hfail]⟩

/-- Shape of the fundamentals analyzer output under any failed model call. -/
theorem fundamentals_failure_shape (llmAvailable : Bool)
    (loads : List Char → Option Dict) (modelResponse : Except String (List Char))
    (stockData : Dict)
    (hfail : hasKey (call_gemini_optimized llmAvailable loads modelResponse).1 "error" = true) :
    ∃ s n, analyze_fundamentals llmAvailable loads modelResponse stockData =
      ([("score", .vNum 0), ("reasoning", .vStr s)], n) := by
  unfold analyze_fundamentals
  by_cases h1 : (stockData.isEmpty || hasKey stockData "error") = true
  · exact ⟨"No fundamental data available", 0, by simp [h1]⟩
  · cases llmAvailable with
    | false => exact ⟨"Gemini API key not configured", 0, by simp [h1]⟩
    | true =>
        exact ⟨"Error in fundamental analysis: "
            ++ valText (dgetD (call_gemini_optimized true loads modelResponse).1 "error" (.vStr "")),
          (call_gemini_optimized true loads modelResponse).2,
          by simp [h1, hfail]⟩

/-- C7: for every analyzer invocation and every failed model-call outcome
(network failure, error result, or unparseable output — all of which leave
an error field in the call result), the analyzer returns a dictionary with
score 0 and a textual reasoning, never an exception; and the orchestrator
fan-in substitutes the neutral-zero fallback for a raised analyzer future. -/
theorem analyzers_degrade_to_neutral_zero (llmAvailable : Bool)
    (loads : List Char → Option Dict) (modelResponse : Except String (List Char))
    (hfail : hasKey (call_gemini_optimized llmAvailable loads modelResponse).1 "error" = true)
    (newsData : Option (List Dict)) (technicalData stockData : Dict) :
    (dget (analyze_news_sentiment llmAvailable loads modelResponse newsData).1 "score"
        = some (.vNum 0) ∧
      ∃ s, dget (analyze_news_sentiment llmAvailable loads modelResponse newsData).1 "reasoning"
        = some (.vStr s)) ∧
    (dget (analyze_technical_indicators llmAvailable loads modelResponse technicalData).1 "score"
        = some (.vNum 0) ∧
      ∃ s, dget (analyze_technical_indicators llmAvailable loads modelResponse technicalData).1 "reasoning"
        = some (.vStr s)) ∧
    (dget (analyze_fundamentals llmAvailable loads modelResponse stockData).1 "score"
        = some (.vNum 0) ∧
      ∃ s, dget (analyze_fundamentals llmAvailable loads modelResponse stockData).1 "reasoning"
        = some (.vStr s)) ∧
    (∀ e, collectAnalyzerResult (.error e) =
      [("score", .vNum 0), ("reasoning", .vStr ("Error: " ++ e))]) := by
  obtain ⟨s1, n1, h1⟩ :=
    news_sentiment_failure_shape llmAvailable loads modelResponse newsData hfail
  obtain ⟨s2, n2, h2⟩ :=
    technical_failure_shape llmAvailable loads modelResponse technicalData hfail
  obtain ⟨s3, n3, h3⟩ :=
    fundamentals_failure_shape llmAvailable loads modelResponse stockData hfail
  refine ⟨⟨?_, ⟨s1, ?_⟩⟩, ⟨?_, ⟨s2, ?_⟩⟩, ⟨?_, ⟨s3, ?_⟩⟩, fun e => rfl⟩ <;>
    simp [h1, h2, h3, dget, List.lookup]

/-- Witness for C7: an unconfigured model (whose call result is an error
dictionary) at concrete inputs; the extracted consequence instantiates the
orchestrator substitution clause. -/
theorem analyzers_degrade_to_neutral_zero_witness :
    collectAnalyzerResult (.error "boom") =
      [("score", .vNum 0), ("reasoning", .vStr ("Error: " ++ "boom"))] :=
  (analyzers_degrade_to_neutral_zero false (fun _ => none) (.error "down")
    (by rfl) none [] []).2.2.2 "boom"

/-! ## C9: weighted-average-cost merge of repeated adds -/

/-- C9: adding further shares of a symbol already actively held by the same
owner merges into that single holding, with summed shares and the
weighted-average cost. -/
theorem add_stock_merges_average_cost (pre post : List PortfolioHolding)
    (h : PortfolioHolding) (sid uid : Nat) (s₂ c₂ : ℚ)
    (hpre : ∀ x ∈ pre, holdingMatches sid uid x = false)
    (hh : holdingMatches sid uid h = true) :
    add_stock_to_portfolio (pre ++ h :: post) sid uid s₂ c₂ =
      pre ++ mergeHolding h s₂ c₂ :: post ∧
    (mergeHolding h s₂ c₂).shares = h.shares + s₂ ∧
    (mergeHolding h s₂ c₂).average_cost =
      (h.shares * h.average_cost + s₂ * c₂) / (h.shares + s₂) := by
  refine ⟨?_, rfl, rfl⟩
  induction pre with
  | nil => simp [add_stock_to_portfolio, hh]
  | cons a t ih =>
      have ha : holdingMatches sid uid a = false := hpre a (by simp)
      simp only [List.cons_append, add_stock_to_portfolio, ha, Bool.false_eq_true,
        if_false, List.cons.injEq, true_and]
      exact ih (fun x hx => hpre x (by simp [hx]))

/-- Witness for C9: the spec scenario — 10 shares at cost 80 plus 10 shares
at cost 100 merge to 20 shares at average cost 90. -/
theorem add_stock_merges_average_cost_witness :
    add_stock_to_portfolio [⟨1, 1, 10, 80, true⟩] 1 1 10 100 =
      [⟨1, 1, 20, 90, true⟩] := by
  have h := add_stock_merges_average_cost [] [] ⟨1, 1, 10, 80, true⟩ 1 1 10 100
    (fun x hx => absurd hx (List.not_mem_nil x)) rfl
  have h2 := h.1
  simp only [List.nil_append] at h2
  rw [h2]
  simp only [mergeHolding, List.cons.injEq, and_true, PortfolioHolding.mk.injEq]
  norm_num

/-! ## C4: no spurious change row when the action repeats -/

/-- The recommendation insert happens on every path of the store. -/
theorem create_recs (db : DB) (sid : Nat) (ar : AnalysisResult) :
    (create_recommendation_for_stock db sid ar).recs = db.recs ++ [recRowOf sid ar] := by
  unfold create_recommendation_for_stock
  rcases h : latestRecommendation db sid with _ | p
  · simp [h]
  · by_cases hne : p.recommendation ≠ ar.recommendation
    · simp [h, hne]
    · simp [h, hne]

/-- After a record operation, the latest recommendation of the stock is the
row just inserted. -/
theorem latest_after_create (db : DB) (sid : Nat) (ar : AnalysisResult) :
    latestRecommendation (create_recommendation_for_stock db sid ar) sid =
      some (recRowOf sid ar) := by
  unfold latestRecommendation
  rw [create_recs, List.filter_append]
  simp [recRowOf]

/-- The change table grows exactly when a previous recommendation exists
with a different action. -/
theorem create_changes (db : DB) (sid : Nat) (ar : AnalysisResult) :
    (create_recommendation_for_stock db sid ar).changes =
      (match latestRecommendation db sid with
       | some p =>
           if p.recommendation ≠ ar.recommendation
           then db.changes ++ [⟨sid, p.recommendation, ar.recommendation⟩]
           else db.changes
       | none => db.changes) := by
  unfold create_recommendation_for_stock
  rcases h : latestRecommendation db sid with _ | p
  · simp [h]
  · by_cases hne : p.recommendation ≠ ar.recommendation
    · simp [h, hne]
    · simp [h, hne]

/-- C4: recording twice in succession with the same action inserts a second
Recommendation row but no RecommendationChange row; and a change row is
inserted only when a prior Recommendation exists whose action differs. -/
theorem record_same_action_inserts_no_change (db : DB) (sid : Nat)
    (ar₁ ar₂ : AnalysisResult) (hsame : ar₁.recommendation = ar₂.recommendation) :
    ((create_recommendation_for_stock (create_recommendation_for_stock db sid ar₁) sid ar₂).recs).length
      = ((create_recommendation_for_stock db sid ar₁).recs).length + 1 ∧
    (create_recommendation_for_stock (create_recommendation_for_stock db sid ar₁) sid ar₂).changes
      = (create_recommendation_for_stock db sid ar₁).changes ∧
    (∀ (d : DB) (a : AnalysisResult),
      (create_recommendation_for_stock d sid a).changes ≠ d.changes →
      ∃ p, latestRecommendation d sid = some p ∧ p.recommendation ≠ a.recommendation) := by
  refine ⟨?_, ?_, ?_⟩
  · rw [create_recs]; simp
  · rw [create_changes, latest_after_create]
    simp [recRowOf, hsame]
  · intro d a hne
    rcases h : latestRecommendation d sid with _ | p
    · rw [create_changes, h] at hne
      simp at hne
    · by_cases hd : p.recommendation ≠ a.recommendation
      · exact ⟨p, by simp [h], hd⟩
      · rw [create_changes, h] at hne
        simp [hd] at hne

/-- Witness for C4: two BUY records on an empty store leave the change
table of the second state equal to that of the first. -/
theorem record_same_action_inserts_no_change_witness :
    (create_recommendation_for_stock (create_recommendation_for_stock ⟨[], []⟩ 1
        ⟨.vStr "BUY", .vNum 1, .vStr "r", .vNum 0, .vNum 0, .vNum 0⟩) 1
        ⟨.vStr "BUY", .vNum 1, .vStr "r", .vNum 0, .vNum 0, .vNum 0⟩).changes
      = (create_recommendation_for_stock ⟨[], []⟩ 1
        ⟨.vStr "BUY", .vNum 1, .vStr "r", .vNum 0, .vNum 0, .vNum 0⟩).changes :=
  (record_same_action_inserts_no_change ⟨[], []⟩ 1 _ _ rfl).2.1

/-! ## C3 and C10: the refresh driver over partial failures -/

/-- Whether the analysis of a holding succeeds. -/
def analyzeOkB (analyze : Holding → Except String AnalysisResult) (h : Holding) : Bool :=
  match analyze h with
  | .ok _ => true
  | .error _ => false

/-- The error string contributed by a failed holding, naming its symbol. -/
def analyzeErrMsg (analyze : Holding → Except String AnalysisResult) (h : Holding) :
    Option String :=
  match analyze h with
  | .ok _ => none
  | .error e => some ("Error analyzing " ++ h.symbol ++ ": " ++ e)

/-- The recommendation row contributed by a successful holding. -/
def analyzeRecRow (analyze : Holding → Except String AnalysisResult) (h : Holding) :
    Option RecRow :=
  match analyze h with
  | .ok ar => some (recRowOf h.stock_id ar)
  | .error _ => none

/-- Effect of one successful iteration of the processing loop. -/
theorem refreshProcessOne_ok (analyze : Holding → Except String AnalysisResult)
    (st : RefreshState) (h : Holding) (ar : AnalysisResult) (ha : analyze h = .ok ar) :
    (refreshProcessOne analyze st h).session.recs
        = st.session.recs ++ [recRowOf h.stock_id ar] ∧
    (refreshProcessOne analyze st h).updated_count = st.updated_count + 1 ∧
    (refreshProcessOne analyze st h).errors = st.errors ∧
    (refreshProcessOne analyze st h).changed_count ≤ st.changed_count + 1 := by
  simp only [refreshProcessOne, analyze_single_stock, ha]
  rcases hp : latestRecommendation st.session h.stock_id with _ | p
  · simp [hp]
  · by_cases hne : p.recommendation ≠ ar.recommendation <;> simp [hp, hne]

/-- Effect of one failed iteration of the processing loop. -/
theorem refreshProcessOne_err (analyze : Holding → Except String AnalysisResult)
    (st : RefreshState) (h : Holding) (e : String) (ha : analyze h = .error e) :
    refreshProcessOne analyze st h =
      { st with errors := st.errors ++ ["Error analyzing " ++ h.symbol ++ ": " ++ e] } := by
  simp [refreshProcessOne, analyze_single_stock, ha]

/-- The processing loop accumulates success counts, error strings and
inserted rows independently per holding. -/
theorem refreshFold_spec (analyze : Holding → Except String AnalysisResult)
    (hs : List Holding) : ∀ st : RefreshState,
    ((hs.foldl (refreshProcessOne analyze) st).updated_count =
        st.updated_count + (hs.filter (analyzeOkB analyze)).length) ∧
    ((hs.foldl (refreshProcessOne analyze) st).errors =
        st.errors ++ hs.filterMap (analyzeErrMsg analyze)) ∧
    ((hs.foldl (refreshProcessOne analyze) st).session.recs =
        st.session.recs ++ hs.filterMap (analyzeRecRow analyze)) ∧
    ((hs.foldl (refreshProcessOne analyze) st).changed_count ≤
        st.changed_count + (hs.filter (analyzeOkB analyze)).length) := by
  induction hs with
  | nil => intro st; simp
  | cons h t ih =>
      intro st
      rcases ha : analyze h with e | ar
      · have hok : analyzeOkB analyze h = false := by simp [analyzeOkB, ha]
        have hmsg : analyzeErrMsg analyze h
            = some ("Error analyzing " ++ h.symbol ++ ": " ++ e) := by
          simp [analyzeErrMsg, ha]
        have hrow : analyzeRecRow analyze h = none := by simp [analyzeRecRow, ha]
        rw [List.foldl_cons, refreshProcessOne_err analyze st h e ha]
        obtain ⟨ih1, ih2, ih3, ih4⟩ :=
          ih { st with errors := st.errors ++ ["Error analyzing " ++ h.symbol ++ ": " ++ e] }
        refine ⟨?_, ?_, ?_, ?_⟩
        · rw [ih1]
          simp [List.filter_cons, hok]
        · rw [ih2]
          simp [List.filterMap_cons, hmsg]
        · rw [ih3]
          simp [List.filterMap_cons, hrow]
        · refine le_trans ih4 ?_
          simp [List.filter_cons, hok]
      · have hok : analyzeOkB analyze h = true := by simp [analyzeOkB, ha]
        have hmsg : analyzeErrMsg analyze h = none := by simp [analyzeErrMsg, ha]
        have hrow : analyzeRecRow analyze h = some (recRowOf h.stock_id ar) := by
          simp [analyzeRecRow, ha]
        obtain ⟨hb1, hb2, hb3, hb4⟩ := refreshProcessOne_ok analyze st h ar ha
        obtain ⟨ih1, ih2, ih3, ih4⟩ := ih (refreshProcessOne analyze st h)
        refine ⟨?_, ?_, ?_, ?_⟩
        · rw [List.foldl_cons, ih1, hb2]
          simp [List.filter_cons, hok]
          omega
        · rw [List.foldl_cons, ih2, hb3]
          simp [List.filterMap_cons, hmsg]
        · rw [List.foldl_cons, ih3, hb1]
          simp [List.filterMap_cons, hrow]
        · rw [List.foldl_cons]
          refine le_trans ih4 ?_
          have hlen : (List.filter (analyzeOkB analyze) (h :: t)).length
              = (List.filter (analyzeOkB analyze) t).length + 1 := by
            simp [List.filter_cons, hok]
          rw [hlen]
          have := Nat.add_le_add_right hb4 (List.filter (analyzeOkB analyze) t).length
          omega


/-- Each holding lands in exactly one of the success or failure tallies. -/
theorem ok_err_partition (analyze : Holding → Except String AnalysisResult)
    (hs : List Holding) :
    (hs.filter (analyzeOkB analyze)).length +
      (hs.filterMap (analyzeErrMsg analyze)).length = hs.length := by
  induction hs with
  | nil => rfl
  | cons h t ih =>
      rcases ha : analyze h with e | ar <;>
        simp [List.filter_cons, List.filterMap_cons, analyzeOkB, analyzeErrMsg, ha] <;>
        omega

/-- C3: a refresh over n holdings with k failed analyses still processes
every other holding: it reports total n, updated n − k, an error list with
exactly the k per-symbol messages, and commits exactly the successful rows. -/
theorem refresh_all_processes_every_holding (db : DB)
    (analyze : Holding → Except String AnalysisResult) (holdings : List Holding) :
    ((refresh_all_recommendations db analyze holdings).2.total_stocks = holdings.length) ∧
    ((refresh_all_recommendations db analyze holdings).2.updated_count =
        (holdings.filter (analyzeOkB analyze)).length) ∧
    ((refresh_all_recommendations db analyze holdings).2.errors =
        holdings.filterMap (analyzeErrMsg analyze)) ∧
    ((refresh_all_recommendations db analyze holdings).2.updated_count =
        holdings.length - ((refresh_all_recommendations db analyze holdings).2.errors).length) ∧
    ((refresh_all_recommendations db analyze holdings).1.recs =
        db.recs ++ holdings.filterMap (analyzeRecRow analyze)) := by
  obtain ⟨f1, f2, f3, f4⟩ := refreshFold_spec analyze holdings ⟨db, 0, 0, []⟩
  have hpart := ok_err_partition analyze holdings
  by_cases hempty : holdings.isEmpty = true
  · rw [List.isEmpty_iff] at hempty
    subst hempty
    simp [refresh_all_recommendations]
  · have hne : holdings.isEmpty = false := by
      cases hb : holdings.isEmpty
      · rfl
      · exact absurd hb hempty
    unfold refresh_all_recommendations
    rw [hne]
    simp only [Bool.false_eq_true, if_false, true_and]
    refine ⟨?_, ?_, ?_, ?_⟩
    · simpa using f1
    · simpa using f2
    · have e1 := f1
      have e2 := congrArg List.length f2
      simp at e1 e2
      simp only [e1, e2]
      omega
    · simpa using f3

/-- C10: every holding contributes to exactly one tally, so updated plus
errors equals total equals the holding count, and the changed count never
exceeds the updated count. -/
theorem refresh_counts_invariant (db : DB)
    (analyze : Holding → Except String AnalysisResult) (holdings : List Holding) :
    ((refresh_all_recommendations db analyze holdings).2.updated_count +
        ((refresh_all_recommendations db analyze holdings).2.errors).length =
        (refresh_all_recommendations db analyze holdings).2.total_stocks) ∧
    ((refresh_all_recommendations db analyze holdings).2.total_stocks = holdings.length) ∧
    ((refresh_all_recommendations db analyze holdings).2.changed_count ≤
        (refresh_all_recommendations db analyze holdings).2.updated_count) := by
  obtain ⟨f1, f2, f3, f4⟩ := refreshFold_spec analyze holdings ⟨db, 0, 0, []⟩
  have hpart := ok_err_partition analyze holdings
  by_cases hempty : holdings.isEmpty = true
  · rw [List.isEmpty_iff] at hempty
    subst hempty
    simp [refresh_all_recommendations]
  · have hne : holdings.isEmpty = false := by
      cases hb : holdings.isEmpty
      · rfl
      · exact absurd hb hempty
    unfold refresh_all_recommendations
    rw [hne]
    simp only [Bool.false_eq_true, if_false, true_and]
    have e1 := f1
    have e2 := congrArg List.length f2
    have e4 := f4
    simp at e1 e2 e4
    refine ⟨?_, ?_⟩
    · simp only [e1, e2]
      omega
    · simp only [e1]
      exact e4

/-! ## C5: the action-history round-trip invariant -/

/-- Unfolding equation of collapseDups at a two-element head. -/
theorem collapseDups_cons2 (a b : Val) (t : List Val) :
    collapseDups (a :: b :: t) =
      if a = b then collapseDups (b :: t) else a :: collapseDups (b :: t) := rfl

/-- Appending the action already at the end of the history leaves the
collapsed history unchanged. -/
theorem collapseDups_concat_same (xs : List Val) (a : Val) :
    xs.getLast? = some a → collapseDups (xs ++ [a]) = collapseDups xs := by
  induction xs with
  | nil => intro h; simp at h
  | cons x t ih =>
      intro h
      cases t with
      | nil =>
          simp at h
          subst h
          simp [collapseDups_cons2, collapseDups]
      | cons y t2 =>
          rw [List.getLast?_cons_cons] at h
          have hrec := ih h
          simp only [List.cons_append] at hrec ⊢
          rw [collapseDups_cons2, collapseDups_cons2, hrec]

/-- Appending an action different from the last one appends it to the
collapsed history. -/
theorem collapseDups_concat_new (xs : List Val) (a b : Val) :
    xs.getLast? = some b → b ≠ a →
    collapseDups (xs ++ [a]) = collapseDups xs ++ [a] := by
  induction xs with
  | nil => intro h; simp at h
  | cons x t ih =>
      intro h hne
      cases t with
      | nil =>
          simp at h
          subst h
          simp [collapseDups_cons2, collapseDups, hne]
      | cons y t2 =>
          rw [List.getLast?_cons_cons] at h
          have hrec := ih h hne
          simp only [List.cons_append] at hrec ⊢
          rw [collapseDups_cons2, collapseDups_cons2, hrec]
          by_cases hxy : x = y
          · rw [if_pos hxy, if_pos hxy]
          · rw [if_neg hxy, if_neg hxy, List.cons_append]

/-- The latest recommendation action is the last entry of the action
history. -/
theorem latest_action_eq_getLast (db : DB) (sid : Nat) :
    (latestRecommendation db sid).map (fun r => r.recommendation) =
      (recommendationActions db sid).getLast? := by
  unfold latestRecommendation recommendationActions
  rw [List.getLast?_map]

/-- The action history grows by the recorded action exactly for the
recorded stock. -/
theorem recommendationActions_create (db : DB) (s sid : Nat) (ar : AnalysisResult) :
    recommendationActions (create_recommendation_for_stock db s ar) sid =
      recommendationActions db sid ++
        (if s == sid then [ar.recommendation] else []) := by
  unfold recommendationActions
  rw [create_recs, List.filter_append, List.map_append]
  by_cases h : (s == sid) = true
  · simp [recRowOf, h]
  · have h2 : (s == sid) = false := by
      cases hb : (s == sid)
      · rfl
      · exact absurd hb h
    simp [recRowOf, h2]

/-- The replayed-change list of a stock after a record operation. -/
theorem changeNews_create (db : DB) (s sid : Nat) (ar : AnalysisResult) :
    changeNews (create_recommendation_for_stock db s ar) sid =
      changeNews db sid ++
        (match latestRecommendation db s with
         | some p =>
             if p.recommendation ≠ ar.recommendation ∧ (s == sid) = true
             then [ar.recommendation] else []
         | none => []) := by
  unfold changeNews
  rw [create_changes]
  rcases hl : latestRecommendation db s with _ | p
  · simp
  · by_cases hne : p.recommendation ≠ ar.recommendation
    · by_cases h : (s == sid) = true
      · simp [hne, h, List.filter_append]
      · have h2 : (s == sid) = false := by
          cases hb : (s == sid)
          · rfl
          · exact absurd hb h
        simp [hne, h2, List.filter_append]
    · have heq2 : p.recommendation = ar.recommendation := not_not.mp hne
      simp [heq2]

/-- The store invariant relating the two histories of a stock. -/
def HistoryInv (db : DB) (sid : Nat) : Prop :=
  collapseDups (recommendationActions db sid) = changeReplay db sid ∧
  (recommendationActions db sid = [] → changeNews db sid = [])

/-- Every record operation preserves the history invariant of every stock. -/
theorem historyInv_create (db : DB) (sid s : Nat) (ar : AnalysisResult)
    (hinv : HistoryInv db sid) :
    HistoryInv (create_recommendation_for_stock db s ar) sid := by
  obtain ⟨hcol, hnil⟩ := hinv
  by_cases hs : (s == sid) = true
  · have hseq : s = sid := by simpa using hs
    subst hseq
    have hact2 : recommendationActions (create_recommendation_for_stock db s ar) s =
        recommendationActions db s ++ [ar.recommendation] := by
      rw [recommendationActions_create]
      simp
    rcases hl : latestRecommendation db s with _ | p
    · -- no previous recommendation: the action history was empty
      have hnone : (recommendationActions db s).getLast? = none := by
        rw [← latest_action_eq_getLast, hl]; rfl
      have hempty : recommendationActions db s = [] :=
        List.getLast?_eq_none_iff.mp hnone
      have hcn : changeNews db s = [] := hnil hempty
      have hcn2 : changeNews (create_recommendation_for_stock db s ar) s = [] := by
        rw [changeNews_create, hl, hcn]
        rfl
      constructor
      · unfold changeReplay
        rw [hact2, hempty, hcn2]
        simp [collapseDups]
      · intro habs
        rw [hact2] at habs
        simp at habs
    · have hlast : (recommendationActions db s).getLast? = some p.recommendation := by
        rw [← latest_action_eq_getLast, hl]; rfl
      obtain ⟨c, rest, hact⟩ : ∃ c rest, recommendationActions db s = c :: rest := by
        rcases hx : recommendationActions db s with _ | ⟨c, rest⟩
        · rw [hx] at hlast; simp at hlast
        · exact ⟨c, rest, rfl⟩
      have hreplay : changeReplay db s = c :: changeNews db s := by
        unfold changeReplay
        rw [hact]
      by_cases heq : p.recommendation = ar.recommendation
      · -- repeated action: no change row, collapsed history unchanged
        have hcn2 : changeNews (create_recommendation_for_stock db s ar) s =
            changeNews db s := by
          rw [changeNews_create, hl]
          simp [heq]
        constructor
        · unfold changeReplay
          rw [hact2, collapseDups_concat_same _ _ (by rw [hlast, heq]), hcol,
            hreplay, hcn2, hact]
          simp
        · intro habs
          rw [hact2] at habs
          simp at habs
      · -- action moved: one change row, collapsed history extended
        have hcn2 : changeNews (create_recommendation_for_stock db s ar) s =
            changeNews db s ++ [ar.recommendation] := by
          rw [changeNews_create, hl]
          simp [heq]
        constructor
        · unfold changeReplay
          rw [hact2, collapseDups_concat_new _ _ _ hlast heq, hcol,
            hreplay, hcn2, hact]
          simp
        · intro habs
          rw [hact2] at habs
          simp at habs
  · have hs2 : (s == sid) = false := by
      cases hb : (s == sid)
      · rfl
      · exact absurd hb hs
    have hact : recommendationActions (create_recommendation_for_stock db s ar) sid =
        recommendationActions db sid := by
      rw [recommendationActions_create, hs2]
      simp
    have hcn : changeNews (create_recommendation_for_stock db s ar) sid =
        changeNews db sid := by
      rw [changeNews_create]
      rcases hl : latestRecommendation db s with _ | p
      · simp
      · simp [hs2]
    constructor
    · rw [hact]
      unfold changeReplay
      rw [hact, hcn]
      exact hcol
    · intro habs
      rw [hact] at habs
      rw [hcn]
      exact hnil habs

/-- The invariant holds after any sequence of record operations on an
empty store. -/
theorem historyInv_applyRecords (ops : List (Nat × AnalysisResult)) (sid : Nat) :
    HistoryInv (applyRecords ops) sid := by
  suffices h : ∀ db, HistoryInv db sid →
      HistoryInv (ops.foldl (fun db op => create_recommendation_for_stock db op.1 op.2) db) sid by
    exact h ⟨[], []⟩ ⟨rfl, fun _ => rfl⟩
  induction ops with
  | nil => intro db hdb; exact hdb
  | cons op t ih =>
      intro db hdb
      exact ih _ (historyInv_create db sid op.1 op.2 hdb)

/-- C5: after any sequence of record operations, the action history of a
stock with consecutive duplicates collapsed equals the replay of its change
rows seeded with the first recommendation action. -/
theorem action_history_roundtrip (ops : List (Nat × AnalysisResult)) (sid : Nat) :
    collapseDups (recommendationActions (applyRecords ops) sid) =
      changeReplay (applyRecords ops) sid :=
  (historyInv_applyRecords ops sid).1

/-! ## C2: the RSI computation -/

/-- Elements produced by a pointwise nonnegative zip are nonnegative. -/
theorem mem_zipWith_nonneg (f : ℚ → ℚ → ℚ) (hf : ∀ a b, 0 ≤ f a b) :
    ∀ (l1 l2 : List ℚ) (x : ℚ), x ∈ List.zipWith f l1 l2 → 0 ≤ x := by
  intro l1
  induction l1 with
  | nil => intro l2 x hx; simp at hx
  | cons a t ih =>
      intro l2 x hx
      cases l2 with
      | nil => simp at hx
      | cons b t2 =>
          rw [List.zipWith_cons_cons] at hx
          rcases List.mem_cons.mp hx with h | h
          · subst h; exact hf a b
          · exact ih t2 x h

/-- Every entry of the gain series is nonnegative. -/
theorem gainSeries_nonneg (ps : List ℚ) : ∀ x ∈ gainSeries ps, 0 ≤ x := by
  intro x hx
  unfold gainSeries at hx
  rcases List.mem_cons.mp hx with h | h
  · subst h; exact le_refl 0
  · refine mem_zipWith_nonneg _ ?_ ps ps.tail x h
    intro a b
    by_cases hab : 0 < b - a
    · rw [if_pos hab]; exact le_of_lt hab
    · rw [if_neg hab]

/-- Every entry of the loss series is nonnegative. -/
theorem lossSeries_nonneg (ps : List ℚ) : ∀ x ∈ lossSeries ps, 0 ≤ x := by
  intro x hx
  unfold lossSeries at hx
  rcases List.mem_cons.mp hx with h | h
  · subst h; exact le_refl 0
  · refine mem_zipWith_nonneg _ ?_ ps ps.tail x h
    intro a b
    by_cases hab : b - a < 0
    · rw [if_pos hab]
      linarith
    · rw [if_neg hab]

/-- A trailing rolling mean of a nonnegative series is nonnegative. -/
theorem rollingMeanLast_nonneg (w : Nat) (xs : List ℚ) (hx : ∀ x ∈ xs, 0 ≤ x)
    (m : ℚ) (hm : rollingMeanLast w xs = some m) : 0 ≤ m := by
  unfold rollingMeanLast at hm
  by_cases hlen : xs.length < w
  · rw [if_pos hlen] at hm
    exact absurd hm (by simp)
  · rw [if_neg hlen] at hm
    have hme : (xs.drop (xs.length - w)).sum / (w : ℚ) = m := Option.some.inj hm
    have hsum : 0 ≤ (xs.drop (xs.length - w)).sum :=
      List.sum_nonneg (fun x hmem => hx x (List.mem_of_mem_drop hmem))
    rw [← hme]
    positivity

/-- C2 counterexample: a strictly rising 15-price series has trailing
average loss zero, yet the reported RSI is the number 100, not absent. -/
theorem rsi_zero_loss_reports_100_cx :
    rollingMeanLast 14 (lossSeries [1, 2, 3, 4, 5, 6, 7, 8, 9, 10, 11, 12, 13, 14, 15]) =
      some 0 ∧
    reportRsi [1, 2, 3, 4, 5, 6, 7, 8, 9, 10, 11, 12, 13, 14, 15] = some (.num 100) := by
  constructor
  · norm_num [lossSeries, rollingMeanLast]
  · have hg : gainSeries [(1 : ℚ), 2, 3, 4, 5, 6, 7, 8, 9, 10, 11, 12, 13, 14, 15] =
        [0, 1, 1, 1, 1, 1, 1, 1, 1, 1, 1, 1, 1, 1, 1] := by
      norm_num [gainSeries]
    have hl : lossSeries [(1 : ℚ), 2, 3, 4, 5, 6, 7, 8, 9, 10, 11, 12, 13, 14, 15] =
        [0, 0, 0, 0, 0, 0, 0, 0, 0, 0, 0, 0, 0, 0, 0] := by
      norm_num [lossSeries]
    unfold reportRsi calculate_rsi
    rw [hg, hl]
    norm_num [rollingMeanLast, PF.div, PF.add, PF.sub, round2, round_eq]

/-- C2 (amended): with the trailing 14-entry average gain g and average
loss l of the masked gain and loss series, the computed RSI is the real
number 100 − 100/(1 + g/l) whenever l is nonzero; when l is zero it is the
number 100 if g is positive, and NaN (still a present, truthy value) when g
is also zero. -/
theorem calculate_rsi_cases (ps : List ℚ) (g l : ℚ)
    (hg : rollingMeanLast 14 (gainSeries ps) = some g)
    (hl : rollingMeanLast 14 (lossSeries ps) = some l) :
    (l ≠ 0 → calculate_rsi ps = some (.num (100 - 100 / (1 + g / l)))) ∧
    (l = 0 → g ≠ 0 → calculate_rsi ps = some (.num 100)) ∧
    (l = 0 → g = 0 → calculate_rsi ps = some .nan) := by
  have hg0 : 0 ≤ g := rollingMeanLast_nonneg 14 _ (gainSeries_nonneg ps) g hg
  have hl0 : 0 ≤ l := rollingMeanLast_nonneg 14 _ (lossSeries_nonneg ps) l hl
  have hpsne : ps.isEmpty = false := by
    cases hps : ps with
    | nil =>
        subst hps
        have : gainSeries [] = [0] := rfl
        rw [this] at hg
        simp [rollingMeanLast] at hg
    | cons a t => rfl
  refine ⟨?_, ?_, ?_⟩
  · intro hlne
    have hgl : (0 : ℚ) ≤ g / l := div_nonneg hg0 hl0
    have h1 : (1 : ℚ) + g / l ≠ 0 := by positivity
    unfold calculate_rsi
    simp only [hpsne, Bool.false_eq_true, if_false, hg, hl]
    rw [show (PF.num g).div (PF.num l) = PF.num (g / l) from by simp [PF.div, hlne]]
    rw [show (PF.num 1).add (PF.num (g / l)) = PF.num (1 + g / l) from rfl]
    rw [show (PF.num 100).div (PF.num (1 + g / l)) = PF.num (100 / (1 + g / l)) from by
      simp [PF.div, h1]]
    rfl
  · intro hleq hgne
    have hgpos : 0 < g := lt_of_le_of_ne hg0 (Ne.symm hgne)
    unfold calculate_rsi
    simp only [hpsne, Bool.false_eq_true, if_false, hg, hl, hleq]
    rw [show (PF.num g).div (PF.num 0) = PF.pinf from by simp [PF.div, hgne, hgpos]]
    rw [show (PF.num 1).add PF.pinf = PF.pinf from rfl]
    rw [show (PF.num 100).div PF.pinf = PF.num 0 from rfl]
    rw [show (PF.num 100).sub (PF.num 0) = PF.num (100 - 0) from rfl]
    norm_num
  · intro hleq hgeq
    subst hleq hgeq
    unfold calculate_rsi
    simp only [hpsne, Bool.false_eq_true, if_false, hg, hl]
    rfl

/-- Witness for C2 (amended): a constant 15-price series has zero average
gain and zero average loss, and its computed RSI is NaN. -/
theorem calculate_rsi_cases_witness :
    calculate_rsi [1, 1, 1, 1, 1, 1, 1, 1, 1, 1, 1, 1, 1, 1, 1] = some PF.nan := by
  have hg : rollingMeanLast 14 (gainSeries [(1 : ℚ), 1, 1, 1, 1, 1, 1, 1, 1, 1, 1, 1, 1, 1, 1]) =
      some 0 := by
    norm_num [gainSeries, rollingMeanLast]
  have hl : rollingMeanLast 14 (lossSeries [(1 : ℚ), 1, 1, 1, 1, 1, 1, 1, 1, 1, 1, 1, 1, 1, 1]) =
      some 0 := by
    norm_num [lossSeries, rollingMeanLast]
  exact (calculate_rsi_cases _ 0 0 hg hl).2.2 rfl rfl

/-! ## C8: code-fence unwrapping before JSON decoding -/

/-- The fence marker, character by character. -/
theorem fence_chars : fence = [btick, btick, btick] := by decide

/-- The json fence marker, character by character. -/
theorem fenceJson_chars :
    fenceJson = [btick, btick, btick, 'j', 's', 'o', 'n'] := by decide

/-- A list is a Boolean prefix of itself followed by anything. -/
theorem isPrefixOf_self_append (a b : List Char) : a.isPrefixOf (a ++ b) = true := by
  induction a with
  | nil => simp [List.isPrefixOf]
  | cons x t ih => simp [List.isPrefixOf, ih]

/-- Lists with distinct heads are not Boolean prefixes of one another. -/
theorem isPrefixOf_head_ne (d c : Char) (ta tb : List Char) (h : (d == c) = false) :
    (d :: ta).isPrefixOf (c :: tb) = false := by
  simp [List.isPrefixOf]
  intro hdc
  simp [hdc] at h

/-- A cons list is not a Boolean prefix of a list with a different head. -/
theorem isPrefixOf_head?_ne (d : Char) (ta ys : List Char) (c : Char)
    (hy : ys.head? = some c) (h : (d == c) = false) :
    (d :: ta).isPrefixOf ys = false := by
  cases ys with
  | nil => simp at hy
  | cons y u =>
      rw [List.head?_cons, Option.some.injEq] at hy
      subst hy
      exact isPrefixOf_head_ne d y ta u h

/-- The reversed fence marker, character by character. -/
theorem fence_rev_chars : fence.reverse = [btick, btick, btick] := by decide

/-- Dropping a whitespace run from the front reaches the remainder. -/
theorem dropWhile_append_all (a b : List Char) (h : ∀ c ∈ a, isPyWS c = true) :
    (a ++ b).dropWhile isPyWS = b.dropWhile isPyWS := by
  induction a with
  | nil => rfl
  | cons x t ih =>
      rw [List.cons_append, List.dropWhile_cons, h x (by simp)]
      exact ih (fun c hc => h c (by simp [hc]))

/-- Right-stripping a list whose last character is not whitespace leaves it
unchanged. -/
theorem dropWhile_reverse_eq_self (xs : List Char) (hne : xs ≠ [])
    (hlast : ∀ c, xs.getLast? = some c → isPyWS c = false) :
    (xs.reverse.dropWhile isPyWS).reverse = xs := by
  rcases hys : xs.reverse with _ | ⟨d, u⟩
  · exact absurd (by simpa using congrArg List.reverse hys) hne
  · have hd : xs.getLast? = some d := by
      rw [← List.head?_reverse, hys]
      rfl
    rw [List.dropWhile_cons, hlast d hd]
    simp only [Bool.false_eq_true, if_false]
    rw [← hys, List.reverse_reverse]

/-- Stripping a list with non-whitespace ends leaves it unchanged. -/
theorem pyStrip_eq_self (xs : List Char)
    (hhead : ∀ c, xs.head? = some c → isPyWS c = false)
    (hlast : ∀ c, xs.getLast? = some c → isPyWS c = false) :
    pyStrip xs = xs := by
  cases xs with
  | nil => rfl
  | cons c t =>
      unfold pyStrip
      rw [List.dropWhile_cons, hhead c rfl]
      simp only [Bool.false_eq_true, if_false]
      exact dropWhile_reverse_eq_self (c :: t) (by simp) hlast

/-- Stripping whitespace padding around a core with non-whitespace ends
recovers the core. -/
theorem pyStrip_pad (ws1 ws2 xs : List Char)
    (h1 : ∀ c ∈ ws1, isPyWS c = true) (h2 : ∀ c ∈ ws2, isPyWS c = true)
    (hne : xs ≠ [])
    (hhead : ∀ c, xs.head? = some c → isPyWS c = false)
    (hlast : ∀ c, xs.getLast? = some c → isPyWS c = false) :
    pyStrip (ws1 ++ xs ++ ws2) = xs := by
  obtain ⟨c, t, rfl⟩ := List.exists_cons_of_ne_nil hne
  unfold pyStrip
  have s1 : (ws1 ++ (c :: t) ++ ws2).dropWhile isPyWS = (c :: t) ++ ws2 := by
    rw [List.append_assoc, dropWhile_append_all ws1 _ h1, List.cons_append,
      List.dropWhile_cons, hhead c rfl]
    simp
  rw [s1, List.reverse_append,
    dropWhile_append_all ws2.reverse _ (fun c hc => h2 c (List.mem_reverse.mp hc))]
  exact dropWhile_reverse_eq_self (c :: t) (by simp) hlast

/-- C8: the parser strips surrounding whitespace and the code-fence
markers before decoding, so a JSON payload (non-empty, trimmed, not itself
starting or ending in a backtick) wrapped in a json code fence with
whitespace padding parses exactly as the bare payload does: the unwrapped
wrapped text is the payload itself, the payload is left untouched by
unwrapping, and the two parse results agree for every decoder. -/
theorem parse_unwraps_fenced_payload (loads : List Char → Option Dict)
    (ws1 ws2 p : List Char)
    (h1 : ∀ c ∈ ws1, isPyWS c = true) (h2 : ∀ c ∈ ws2, isPyWS c = true)
    (c0 : Char) (hhead : p.head? = some c0) (hc0 : isPyWS c0 = false) (hb0 : (btick == c0) = false)
    (c1 : Char) (hlast : p.getLast? = some c1) (hc1 : isPyWS c1 = false) (hb1 : (btick == c1) = false) :
    unwrapFences (ws1 ++ (fenceJson ++ p ++ fence) ++ ws2) = p ∧
    unwrapFences p = p ∧
    parse_llm_json_response loads (ws1 ++ (fenceJson ++ p ++ fence) ++ ws2) =
      parse_llm_json_response loads p := by
  obtain ⟨t, rfl⟩ : ∃ t, p = c0 :: t := by
    cases p with
    | nil => simp at hhead
    | cons x xs =>
        have hx : x = c0 := by simpa using hhead
        exact ⟨xs, by rw [hx]⟩
  have hpne : (c0 :: t) ≠ ([] : List Char) := by simp
  have hphead : ∀ c, (c0 :: t).head? = some c → isPyWS c = false := by
    intro c hc
    rw [List.head?_cons, Option.some.injEq] at hc
    rw [← hc]
    exact hc0
  have hplast : ∀ c, (c0 :: t).getLast? = some c → isPyWS c = false := by
    intro c hc
    rw [hlast, Option.some.injEq] at hc
    rw [← hc]
    exact hc1
  -- the stripped core of the wrapped text
  have hcore_ne : fenceJson ++ (c0 :: t) ++ fence ≠ [] := by simp
  have hcore_head : ∀ c, (fenceJson ++ (c0 :: t) ++ fence).head? = some c →
      isPyWS c = false := by
    intro c hc
    rw [fenceJson_chars] at hc
    simp only [List.cons_append, List.head?_cons, Option.some.injEq] at hc
    rw [← hc]
    decide
  have hcore_last : ∀ c, (fenceJson ++ (c0 :: t) ++ fence).getLast? = some c →
      isPyWS c = false := by
    intro c hc
    rw [List.getLast?_append_of_ne_nil _ (by rw [fence_chars]; simp), fence_chars] at hc
    simp only [List.getLast?_cons_cons, List.getLast?_singleton, Option.some.injEq] at hc
    rw [← hc]
    decide
  have e1 : pyStrip (ws1 ++ (fenceJson ++ (c0 :: t) ++ fence) ++ ws2) =
      fenceJson ++ (c0 :: t) ++ fence :=
    pyStrip_pad ws1 ws2 _ h1 h2 hcore_ne hcore_head hcore_last
  have e2 : stripLeadingJsonFence (fenceJson ++ (c0 :: t) ++ fence) = (c0 :: t) ++ fence := by
    unfold stripLeadingJsonFence
    rw [List.append_assoc, isPrefixOf_self_append]
    simp only [if_true]
    rw [show (7 : Nat) = fenceJson.length from rfl, List.drop_left]
  have hnopre : fence.isPrefixOf ((c0 :: t) ++ fence) = false := by
    rw [fence_chars, List.cons_append]
    exact isPrefixOf_head_ne btick c0 _ _ hb0
  have e3 : stripLeadingFence ((c0 :: t) ++ fence) = (c0 :: t) ++ fence := by
    unfold stripLeadingFence
    rw [hnopre]
    simp
  have e4 : stripTrailingFence ((c0 :: t) ++ fence) = c0 :: t := by
    unfold stripTrailingFence
    have hsuf : fence.isSuffixOf ((c0 :: t) ++ fence) = true := by
      show fence.reverse.isPrefixOf ((c0 :: t) ++ fence).reverse = true
      rw [List.reverse_append]
      exact isPrefixOf_self_append _ _
    rw [hsuf]
    simp only [if_true, List.length_append]
    rw [show (c0 :: t).length + fence.length - 3 = (c0 :: t).length from by
      rw [fence_chars]; simp, List.take_left]
  have e5 : pyStrip (c0 :: t) = c0 :: t := pyStrip_eq_self _ hphead hplast
  have eunwrap : unwrapFences (ws1 ++ (fenceJson ++ (c0 :: t) ++ fence) ++ ws2) = c0 :: t := by
    unfold unwrapFences
    rw [e1, e2, e3, e4, e5]
  -- the bare payload passes through unchanged
  have f1 : stripLeadingJsonFence (c0 :: t) = c0 :: t := by
    unfold stripLeadingJsonFence
    rw [fenceJson_chars, isPrefixOf_head_ne btick c0 _ _ hb0]
    simp
  have f2 : stripLeadingFence (c0 :: t) = c0 :: t := by
    unfold stripLeadingFence
    rw [fence_chars, isPrefixOf_head_ne btick c0 _ _ hb0]
    simp
  have f3 : stripTrailingFence (c0 :: t) = c0 :: t := by
    unfold stripTrailingFence
    have hsuf : fence.isSuffixOf (c0 :: t) = false := by
      show fence.reverse.isPrefixOf (c0 :: t).reverse = false
      rw [fence_rev_chars]
      exact isPrefixOf_head?_ne btick _ _ c1 (by rw [List.head?_reverse]; exact hlast) hb1
    rw [hsuf]
    simp
  have eunwrapp : unwrapFences (c0 :: t) = c0 :: t := by
    unfold unwrapFences
    rw [e5, f1, f2, f3, e5]
  refine ⟨eunwrap, eunwrapp, ?_⟩
  unfold parse_llm_json_response
  rw [eunwrap, eunwrapp]

/-- Witness for C8: a concrete fenced payload with newline padding parses
as the bare payload for a concrete decoder. -/
theorem parse_unwraps_fenced_payload_witness :
    unwrapFences ((" ".toList) ++ (fenceJson ++ ("[1]".toList) ++ fence) ++ ("\n".toList)) =
      "[1]".toList := by
  have h := parse_unwraps_fenced_payload (fun _ => none) (" ".toList) ("\n".toList)
    ("[1]".toList) (by decide) (by decide)
    '[' (by decide) (by decide) (by decide)
    ']' (by decide) (by decide) (by decide)
  exact h.1

end River1
